import Mathlib

set_option linter.unnecessarySeqFocus false

/- Verification of the duplicate-meeting-detection engine
   (utils/clustering.py, utils/similarity.py, utils/data_processing.py).

   Visit records are embedded as structures `Row` (before clustering) and
   `LRow` (after `cluster_by_gps` merged the `cluster_id` column back);
   `meetingDate` is `Option Nat` (a parsed timestamp, `none` modelling
   pandas NaT after `pd.to_datetime(..., errors='coerce')`); coordinates
   are rationals.  Pandas primitives are embedded as list functions:
   `sort_values` as `List.insertionSort` by the key order,
   `drop_duplicates(keep='first')` as `dropDupBy`, `groupby` aggregation
   as filtering by the (ascending-sorted) distinct keys, `set(...)` sizes
   as `dedupKeep` lengths.  External numeric distance routines (geopy
   geodesic, the haversine metric inside sklearn DBSCAN) are parameters
   `d` of the embedding, constrained only where a claim needs it. -/

/-- Comparator of `df.sort_values('meetingDate', ascending=False)`:
descending on parsed dates, with NaT (`none`) placed last
(pandas default `na_position='last'`). -/
def dateDescLE : Option Nat → Option Nat → Bool
  | some a, some b => decide (b ≤ a)
  | some _, none => true
  | none, some _ => false
  | none, none => true

/-- Embedding of `drop_duplicates(subset=<key>, keep='first')`:
keeps the first row carrying each key, scanning left to right;
`seen` is the set of keys already emitted. -/
def dropDupBy {α κ : Type} [DecidableEq κ] (key : α → κ) : List α → List κ → List α
  | [], _ => []
  | a :: l, seen =>
    if key a ∈ seen then dropDupBy key l seen
    else a :: dropDupBy key l (key a :: seen)

/-- Distinct values of a list, keeping the first occurrence of each
(the embedding of python `set(...)` cardinalities, of `nunique`, and of
groupby key extraction). -/
def dedupKeep {κ : Type} [DecidableEq κ] (l : List κ) : List κ :=
  dropDupBy id l []

/-- One cleaned field-visit record (a row of the processed dataframe,
before clustering). -/
structure Row where
  buyerid : Nat
  buyerName : String
  buyerPhone : String
  traderName : String
  meetingDate : Option Nat
  lat : ℚ
  lon : ℚ
deriving DecidableEq

/-- Relation form of the `sort_values('meetingDate', ascending=False)` key
order on rows. -/
def rowDateGE (r s : Row) : Prop := dateDescLE r.meetingDate s.meetingDate = true

instance : DecidableRel rowDateGE := fun r s => by
  unfold rowDateGE; infer_instance

instance : IsTotal Row rowDateGE :=
  ⟨fun r s => by
    unfold rowDateGE
    cases r.meetingDate <;> cases s.meetingDate <;> simp [dateDescLE] <;> omega⟩

instance : IsTrans Row rowDateGE :=
  ⟨fun a b c => by
    unfold rowDateGE
    generalize a.meetingDate = x
    generalize b.meetingDate = y
    generalize c.meetingDate = z
    intro h1 h2
    cases x <;> cases y <;> cases z <;> simp_all [dateDescLE] <;> omega⟩

/-- Embedding of `df.sort_values('meetingDate', ascending=False)` on the
visit rows (any comparison sort agrees up to ties; the claims proved below
depend only on the key order, not on the tie order). -/
def sortByDateDesc (rows : List Row) : List Row :=
  List.insertionSort rowDateGE rows

/-- Line 31 of clustering.py: per-buyer visit count via
`df.groupby('buyerid')['buyerid'].transform('count')`. -/
def meeting_count (rows : List Row) (b : Nat) : Nat :=
  rows.countP (fun r => r.buyerid == b)

/-- Lines 33-35 of clustering.py: sort by meeting date descending and keep
the first (most recent) row of every `buyerid` —
`df.drop_duplicates(subset=['buyerid'], keep='first')`. -/
def dedupUnique (rows : List Row) : List Row :=
  dropDupBy (fun r => r.buyerid) (sortByDateDesc rows) []

/-- One visit record carrying the merged `cluster_id` column, as produced
by `cluster_by_gps` (clustering.py lines 58-70). -/
structure LRow where
  buyerid : Nat
  buyerName : String
  buyerPhone : String
  traderName : String
  meetingDate : Option Nat
  lat : ℚ
  lon : ℚ
  cluster_id : Int
deriving DecidableEq

/-- The key order of `sort_values('meetingDate', ascending=False)` on
labeled rows. -/
def lrowDateGE (r s : LRow) : Prop := dateDescLE r.meetingDate s.meetingDate = true

instance : DecidableRel lrowDateGE := fun r s => by
  unfold lrowDateGE; infer_instance

instance : IsTotal LRow lrowDateGE :=
  ⟨fun r s => by
    unfold lrowDateGE
    cases r.meetingDate <;> cases s.meetingDate <;> simp [dateDescLE] <;> omega⟩

instance : IsTrans LRow lrowDateGE :=
  ⟨fun a b c => by
    unfold lrowDateGE
    generalize a.meetingDate = x
    generalize b.meetingDate = y
    generalize c.meetingDate = z
    intro h1 h2
    cases x <;> cases y <;> cases z <;> simp_all [dateDescLE] <;> omega⟩

/-- Line 84 of clustering.py: `clustered = df[df['cluster_id'] >= 0]`. -/
def clusteredRows (rows : List LRow) : List LRow :=
  rows.filter (fun r => decide (0 ≤ r.cluster_id))

/-- Line 90 of clustering.py:
`unique_buyers = clustered.drop_duplicates(subset=['buyerid', 'cluster_id'])`
— note: no date sort happens first, so the FIRST row of each
(buyerid, cluster_id) pair in dataframe order survives. -/
def unique_buyers (rows : List LRow) : List LRow :=
  dropDupBy (fun r => (r.buyerid, r.cluster_id)) (clusteredRows rows) []

/-- The group keys of `unique_buyers.groupby('cluster_id')`: the distinct
cluster ids, in ascending order (pandas groupby sorts keys). -/
def sortedClusterIds (rows : List LRow) : List Int :=
  List.insertionSort (fun a b : Int => a ≤ b)
    (dedupKeep ((unique_buyers rows).map (fun r => r.cluster_id)))

/-- The rows of one groupby group: members of cluster `cid` among the
deduplicated buyers, in dataframe order (pandas groupby preserves the
within-group row order). -/
def membersOf (rows : List LRow) (cid : Int) : List LRow :=
  (unique_buyers rows).filter (fun r => r.cluster_id == cid)

/-- One output row of `calculate_cluster_stats` (clustering.py 93-106). -/
structure ClusterStatsRow where
  cluster_id : Int
  retailer_count : Nat
  trader_count : Nat
  retailer_names : List String
  phone_numbers : List String
  center_lat : ℚ
  center_lon : ℚ
deriving DecidableEq

/-- clustering.py lines 83-108, `calculate_cluster_stats`: per cluster the
buyer count, `traderName` nunique, name and phone lists, and the mean of
the member coordinates, all computed over `unique_buyers`. -/
def calculate_cluster_stats (rows : List LRow) : List ClusterStatsRow :=
  (sortedClusterIds rows).map fun cid =>
    let g := membersOf rows cid
    { cluster_id := cid
      retailer_count := g.length
      trader_count := (dedupKeep (g.map (fun r => r.traderName))).length
      retailer_names := g.map (fun r => r.buyerName)
      phone_numbers := g.map (fun r => r.buyerPhone)
      center_lat := (g.map (fun r => r.lat)).sum / (g.length : ℚ)
      center_lon := (g.map (fun r => r.lon)).sum / (g.length : ℚ) }

/-- Spec-side definition (for comparison with the code): the group of all
visit rows of buyer `b`. -/
def groupRowsL (rows : List LRow) (b : Nat) : List LRow :=
  rows.filter (fun r => r.buyerid == b)

/-- Spec-side definition (for comparison with the code): the canonical
record of buyer `b` — its most recent visit row, i.e. the head after
sorting the buyer's rows by date descending with NaT last. -/
def canonicalOf (rows : List LRow) (b : Nat) : Option LRow :=
  (List.insertionSort lrowDateGE (groupRowsL rows b)).head?

/-- Spec-side definition: the member buyer ids of cluster `cid` (distinct
`buyerid` values carrying that cluster id, in first-appearance order). -/
def specClusterMembers (rows : List LRow) (cid : Int) : List Nat :=
  dedupKeep ((rows.filter (fun r => r.cluster_id == cid)).map (fun r => r.buyerid))

/-- Spec-side definition: latitude of the canonical (most recent) record
of buyer `b`. -/
def specCanonicalLat (rows : List LRow) (b : Nat) : ℚ :=
  ((canonicalOf rows b).map (fun r => r.lat)).getD 0

/-- Spec-side definition: longitude of the canonical record of buyer `b`. -/
def specCanonicalLon (rows : List LRow) (b : Nat) : ℚ :=
  ((canonicalOf rows b).map (fun r => r.lon)).getD 0

/-- Spec-side definition: name of the canonical record of buyer `b`. -/
def specCanonicalName (rows : List LRow) (b : Nat) : String :=
  ((canonicalOf rows b).map (fun r => r.buyerName)).getD ""

/-- Spec-side definition: phone of the canonical record of buyer `b`. -/
def specCanonicalPhone (rows : List LRow) (b : Nat) : String :=
  ((canonicalOf rows b).map (fun r => r.buyerPhone)).getD ""

/-- Spec-side definition: trader name on the canonical record of `b`. -/
def specCanonicalTrader (rows : List LRow) (b : Nat) : String :=
  ((canonicalOf rows b).map (fun r => r.traderName)).getD ""

/-- Spec-side definition: mean latitude of the members' canonical
coordinates of cluster `cid`, per the claimed centroid semantics. -/
def specCenterLat (rows : List LRow) (cid : Int) : ℚ :=
  ((specClusterMembers rows cid).map (specCanonicalLat rows)).sum /
    ((specClusterMembers rows cid).length : ℚ)

/-- Spec-side definition: mean longitude of the members' canonical
coordinates of cluster `cid`. -/
def specCenterLon (rows : List LRow) (cid : Int) : ℚ :=
  ((specClusterMembers rows cid).map (specCanonicalLon rows)).sum /
    ((specClusterMembers rows cid).length : ℚ)

/-- Spec-side definition, first branch of the claimed `trader_count`
semantics: number of distinct canonical (most-recent) traders among the
members of cluster `cid`. -/
def specTraderCountCanonical (rows : List LRow) (cid : Int) : Nat :=
  (dedupKeep ((specClusterMembers rows cid).map (specCanonicalTrader rows))).length

/-- Spec-side definition, second branch of the claimed `trader_count`
semantics: number of distinct traders across ALL visit rows of cluster
`cid`. -/
def specTraderCountAll (rows : List LRow) (cid : Int) : Nat :=
  (dedupKeep ((rows.filter (fun r => r.cluster_id == cid)).map (fun r => r.traderName))).length

/-- Amended-claim definition: the first row, in dataframe order, of each
distinct buyer of cluster `cid` — what `calculate_cluster_stats` actually
aggregates, having skipped the date sort. -/
def firstRowsOf (rows : List LRow) (cid : Int) : List LRow :=
  dropDupBy (fun r => r.buyerid) (rows.filter (fun r => r.cluster_id == cid)) []

/-- Lookup of `similarity_results[f"cluster_{cid}"]['similar_name_pairs']`;
the string keys `cluster_<id>` are in bijection with the ids, so the dict
is embedded as an association list over the ids themselves. -/
def lookupSim : List (Int × Nat) → Int → Option Nat
  | [], _ => none
  | (k, v) :: t, cid => if k = cid then some v else lookupSim t cid

/-- clustering.py lines 236-238: the risk level thresholds. -/
def riskLevel (x : Nat) : String :=
  if 60 ≤ x then "High" else if 30 ≤ x then "Medium" else "Low"

/-- clustering.py lines 206-233: the per-cluster score accumulation, as a
sequence of conditional increments followed by the final `min(score, 100)`
clamp.  `simPairs` is the looked-up `similar_name_pairs` count (`none`
when the cluster id misses from `similarity_results`). -/
def scoreOf (st : ClusterStatsRow) (simPairs : Option Nat) : Nat :=
  let s1 := if 5 ≤ st.retailer_count then 0 + 30
    else if 3 ≤ st.retailer_count then 0 + 20
    else if 2 ≤ st.retailer_count then 0 + 10
    else 0
  let s2 := if st.trader_count = 1 then s1 + 25 else s1
  let s3 := match simPairs with
    | some c => s2 + min (c * 15) 30
    | none => s2
  let s4 := if (dedupKeep st.phone_numbers).length < st.phone_numbers.length then s3 + 15
    else s3
  min s4 100

/-- A cluster-stats row joined with its risk score and level. -/
structure ScoredRow where
  stats : ClusterStatsRow
  risk_score : Nat
  risk_level : String
deriving DecidableEq

/-- clustering.py lines 187-240, `calculate_cluster_risk_score`. -/
def calculate_cluster_risk_score (stats : List ClusterStatsRow)
    (simres : List (Int × Nat)) : List ScoredRow :=
  stats.map fun st =>
    { stats := st
      risk_score := scoreOf st (lookupSim simres st.cluster_id)
      risk_level := riskLevel (scoreOf st (lookupSim simres st.cluster_id)) }

/-- Spec-side definition: the size factor of the risk score. -/
def sizeFactor (n : Nat) : Nat :=
  if 5 ≤ n then 30 else if 3 ≤ n then 20 else if 2 ≤ n then 10 else 0

/-- Spec-side definition: the trader-concentration factor. -/
def concFactor (t : Nat) : Nat := if t = 1 then 25 else 0

/-- Spec-side definition: the name-similarity factor. -/
def simFactor (c : Nat) : Nat := min (c * 15) 30

/-- Spec-side definition: the phone-duplication factor
(fires when the phone list has fewer distinct values than entries). -/
def phoneFactor (phones : List String) : Nat :=
  if (dedupKeep phones).length < phones.length then 15 else 0

/-- Python whitespace, as used by `str.strip()` and `str.split()`. -/
def pySpace (c : Char) : Bool :=
  c = ' ' || c = '\t' || c = '\n' || c = '\r' || c = '\x0b' || c = '\x0c'

/-- Python `str.lower()` (similarity.py line 20). -/
def pyLower (s : String) : String :=
  String.mk (s.data.map Char.toLower)

/-- Python `str.strip()` (similarity.py line 20). -/
def pyStrip (s : String) : String :=
  String.mk ((((s.data.dropWhile pySpace).reverse).dropWhile pySpace).reverse)

/-- Accumulator loop of python `str.split()`: splits on whitespace runs
and never yields empty tokens. -/
def splitAux : List Char → List Char → List String
  | [], acc => if acc.isEmpty then [] else [String.mk acc.reverse]
  | c :: cs, acc =>
    if pySpace c then
      if acc.isEmpty then splitAux cs [] else String.mk acc.reverse :: splitAux cs []
    else splitAux cs (c :: acc)

/-- Python `str.split()` with no separator argument. -/
def pySplit (s : String) : List String := splitAux s.data []

/-- Length of the longest common subsequence, fuelled so that the
definition is structural (the fuel argument strictly decreases); `lcs`
below always supplies sufficient fuel. -/
def lcsF : Nat → List Char → List Char → Nat
  | 0, _, _ => 0
  | _ + 1, [], _ => 0
  | _ + 1, _ :: _, [] => 0
  | f + 1, a :: as, b :: bs =>
    if a = b then lcsF f as bs + 1
    else max (lcsF f (a :: as) bs) (lcsF f as (b :: bs))

/-- Longest common subsequence length of two character lists. -/
def lcs (x y : List Char) : Nat := lcsF (x.length + y.length) x y

/-- rapidfuzz `fuzz.ratio`: the normalized indel similarity scaled to
[0, 100].  The indel distance equals `len1 + len2 - 2 * lcs`, so the
similarity equals `2 * lcs / (len1 + len2) * 100`; two empty strings
score 100 (rapidfuzz defines the normalized distance of two empty
sequences as 0). -/
def indelRatio (x y : String) : ℚ :=
  if x.data.length + y.data.length = 0 then 100
  else 100 * (2 * (lcs x.data y.data : ℚ)) / ((x.data.length : ℚ) + (y.data.length : ℚ))

/-- Lexicographic comparison of character lists by code point — the order
python `sorted` puts strings in. -/
def lexLE : List Char → List Char → Bool
  | [], _ => true
  | _ :: _, [] => false
  | a :: as, b :: bs => if a < b then true else if b < a then false else lexLE as bs

/-- Python's string order, as a relation on `String`. -/
def strLE (a b : String) : Prop := lexLE a.data b.data = true

instance : DecidableRel strLE := fun a b => by
  unfold strLE; infer_instance

instance : IsTotal String strLE :=
  ⟨fun a b => by
    unfold strLE
    generalize a.data = x
    generalize b.data = y
    induction x generalizing y with
    | nil => left; rfl
    | cons c cs ih =>
      cases y with
      | nil => right; rfl
      | cons d ds =>
        rcases lt_trichotomy c d with h | h | h
        · left; simp [lexLE, h]
        · subst h
          rcases ih ds with h2 | h2
          · left; simp [lexLE, lt_irrefl, h2]
          · right; simp [lexLE, lt_irrefl, h2]
        · right; simp [lexLE, h, lt_asymm h]⟩

instance : IsTrans String strLE :=
  ⟨fun a b c => by
    unfold strLE
    generalize a.data = x
    generalize b.data = y
    generalize c.data = z
    intro h1 h2
    induction x generalizing y z with
    | nil => rfl
    | cons ca cs ih =>
      cases y with
      | nil => exact absurd h1 (by simp [lexLE])
      | cons cb bs =>
        cases z with
        | nil => exact absurd h2 (by simp [lexLE])
        | cons cc zs =>
          by_cases hab : ca < cb
          · by_cases hbc : cb < cc
            · simp [lexLE, lt_trans hab hbc]
            · have hcb : ¬ cc < cb := by
                intro h
                simp [lexLE, hbc, h] at h2
              have he : cb = cc := le_antisymm (not_lt.mp hcb) (not_lt.mp hbc)
              subst he
              simp [lexLE, hab]
          · have hba : ¬ cb < ca := by
              intro h
              simp [lexLE, hab, h] at h1
            have he : ca = cb := le_antisymm (not_lt.mp hba) (not_lt.mp hab)
            subst he
            have h1' : lexLE cs bs = true := by
              simpa [lexLE, lt_irrefl] using h1
            by_cases hbc : ca < cc
            · simp [lexLE, hbc]
            · have hcb : ¬ cc < ca := by
                intro h
                simp [lexLE, hbc, h] at h2
              have he2 : ca = cc := le_antisymm (not_lt.mp hcb) (not_lt.mp hbc)
              subst he2
              have h2' : lexLE bs zs = true := by
                simpa [lexLE, lt_irrefl] using h2
              simpa [lexLE, lt_irrefl] using ih bs zs h1' h2'⟩

instance : IsAntisymm String strLE :=
  ⟨fun a b h1 h2 => by
    have key : ∀ (x y : List Char), lexLE x y = true → lexLE y x = true → x = y := by
      intro x
      induction x with
      | nil =>
        intro y g1 g2
        cases y with
        | nil => rfl
        | cons d ds => exact absurd g2 (by simp [lexLE])
      | cons c cs ih =>
        intro y g1 g2
        cases y with
        | nil => exact absurd g1 (by simp [lexLE])
        | cons d ds =>
          by_cases hcd : c < d
          · simp [lexLE, hcd, lt_asymm hcd] at g2
          · have hdc : ¬ d < c := by
              intro h
              simp [lexLE, hcd, h] at g1
            have he : c = d := le_antisymm (not_lt.mp hdc) (not_lt.mp hcd)
            subst he
            have g1' : lexLE cs ds = true := by simpa [lexLE, lt_irrefl] using g1
            have g2' : lexLE ds cs = true := by simpa [lexLE, lt_irrefl] using g2
            rw [ih ds g1' g2']
    have hd : a.data = b.data := key a.data b.data h1 h2
    cases a
    cases b
    exact congrArg String.mk hd⟩

/-- The token-sort normal form: split on whitespace, sort the tokens
lexicographically, rejoin with single spaces. -/
def tokenSortedForm (s : String) : String :=
  String.intercalate " " (List.insertionSort strLE (pySplit s))

/-- rapidfuzz `fuzz.token_sort_ratio` (similarity.py line 24). -/
def token_sort_ratio (x y : String) : ℚ :=
  indelRatio (tokenSortedForm x) (tokenSortedForm y)

/-- similarity.py lines 6-24, `calculate_name_similarity`: `pd.isna` on
either side (a `none` argument) yields 0, otherwise both names are
lowered, stripped and compared with the token-sort ratio. -/
def calculate_name_similarity : Option String → Option String → ℚ
  | some n1, some n2 => token_sort_ratio (pyStrip (pyLower n1)) (pyStrip (pyLower n2))
  | _, _ => 0

/-- data_processing.py line 75: `df['buyerName'].astype(str).str.strip()`;
`astype(str)` renders a missing name (NaN) as the literal string "nan"
before stripping. -/
def clean_buyerName : Option String → String
  | none => "nan"
  | some s => pyStrip s

/-- The deduplication shared by `analyze_cluster_similarity`,
`calculate_distance_matrix` and `get_cluster_details`: filter the cluster,
sort by date descending, keep the first (most recent) row per buyer. -/
def uniqueClusterRows (rows : List LRow) (cid : Int) : List LRow :=
  dropDupBy (fun r => r.buyerid)
    (List.insertionSort lrowDateGE (rows.filter (fun r => r.cluster_id == cid))) []

/-- One entry of `results['phone_groups']` (similarity.py lines 90-96). -/
structure PhoneGroup where
  phone : String
  retailers : List String
  ids : List Nat
  count : Nat
deriving DecidableEq

/-- similarity.py lines 39-53 and 79-96: the phone-group portion of
`analyze_cluster_similarity`.  Clusters with fewer than two unique buyers
yield the empty list; otherwise buyers are grouped by `buyerPhone`
(groupby sorts the keys ascending), groups whose phone is empty or the
literal "nan" are dropped, and groups with at least two rows remain. -/
def analyze_phone_groups (rows : List LRow) (cid : Int) : List PhoneGroup :=
  let u := uniqueClusterRows rows cid
  if u.length < 2 then []
  else
    let keys := List.insertionSort strLE (dedupKeep (u.map (fun r => r.buyerPhone)))
    let groups := keys.map (fun p =>
      let g := u.filter (fun r => r.buyerPhone == p)
      PhoneGroup.mk p (g.map (fun r => r.buyerName)) (g.map (fun r => r.buyerid))
        (g.map (fun r => r.buyerName)).length)
    (groups.filter (fun g => decide (0 < g.phone.length) && decide (g.phone ≠ "nan"))).filter
      (fun g => decide (1 < g.retailers.length))

/-- A single in-place matrix assignment `m[i, j] = v` on a
function-represented matrix. -/
def updM (M : Nat → Nat → ℚ) (i j : Nat) (v : ℚ) : Nat → Nat → ℚ :=
  fun a b => if a = i ∧ b = j then v else M a b

/-- clustering.py lines 135-144: start from `np.zeros((n, n))` and, for
every `i` and every `j` in `range(i + 1, n)`, write the pair distance into
both `(i, j)` and `(j, i)`.  The geodesic routine is the parameter `d`. -/
def fillMatrix (d : (ℚ × ℚ) → (ℚ × ℚ) → ℚ) (coords : List (ℚ × ℚ)) :
    Nat → Nat → ℚ :=
  (List.range coords.length).foldl
    (fun M i =>
      (List.range' (i + 1) (coords.length - (i + 1))).foldl
        (fun M j =>
          let v := d (coords.getD i (0, 0)) (coords.getD j (0, 0))
          updM (updM M i j v) j i v)
        M)
    (fun _ _ => 0)

/-- clustering.py lines 111-154, `calculate_distance_matrix`: dedup the
cluster to unique buyers (most recent row each), return the empty result
(`none`) for fewer than two of them, else the filled matrix together with
the buyer names labelling its axes. -/
def calculate_distance_matrix (d : (ℚ × ℚ) → (ℚ × ℚ) → ℚ) (rows : List LRow)
    (cid : Int) : Option ((Nat → Nat → ℚ) × List String) :=
  let cd := uniqueClusterRows rows cid
  if cd.length < 2 then none
  else some (fillMatrix d (cd.map (fun r => (r.lat, r.lon))), cd.map (fun r => r.buyerName))

section DBSCANModel

variable {P : Type} (d : P → P → ℚ) (eps : ℚ) (minPts : Nat) (pts : List P)

/-- Modelled from the spec: the repository runs sklearn's `DBSCAN`
(clustering.py lines 40-56), whose implementation is not part of this
repository; this model follows spec section 4.2's semantics — core points
are points with at least `minSamples` neighbours (self included) within
`eps`, clusters are the connected components of core points under the
within-`eps` relation, a border point joins the cluster of a core point
within `eps` (the lowest-index one, a deterministic choice the spec leaves
implementation-defined), unreached points are noise (−1), and cluster ids
are consecutive integers in discovery order.  The metric is the parameter
`d` (the code uses haversine on coordinates converted to radians, with
`eps = radius_meters / 1000 / 6371`).  Neighbourhood of point `i`: all
indices within `eps` of it. -/
def nbhd (i : Fin pts.length) : List (Fin pts.length) :=
  (List.finRange pts.length).filter fun k => decide (d (pts.get k) (pts.get i) ≤ eps)

/-- Core-point test: at least `minPts` points (self included) within
`eps`. -/
def isCorePt (i : Fin pts.length) : Bool :=
  decide (minPts ≤ (nbhd d eps pts i).length)

/-- Direct connection between two core points within `eps` of each
other. -/
def coreAdj (a b : Fin pts.length) : Bool :=
  isCorePt d eps minPts pts a && isCorePt d eps minPts pts b &&
    decide (d (pts.get a) (pts.get b) ≤ eps)

/-- One expansion step of the core-connectivity closure. -/
def stepClose (s : List (Fin pts.length)) : List (Fin pts.length) :=
  dedupKeep (s ++ (List.finRange pts.length).filter
    (fun k => s.any (fun a => coreAdj d eps minPts pts a k)))

/-- Fuelled expansion to a fixed point (each productive step strictly
grows the duplicate-free list, so fuel `pts.length` always suffices). -/
def closeFuel : Nat → List (Fin pts.length) → List (Fin pts.length)
  | 0, s => s
  | f + 1, s =>
    let t := stepClose d eps minPts pts s
    if t.length = s.length then s else closeFuel f t

/-- All points core-connected to `i` (including `i` itself). -/
def reachList (i : Fin pts.length) : List (Fin pts.length) :=
  closeFuel d eps minPts pts pts.length [i]

/-- Representative of the cluster through `i`: the lowest index
core-connected to `i`. -/
def repOf (i : Fin pts.length) : Option (Fin pts.length) :=
  (List.finRange pts.length).find? (fun k => decide (k ∈ reachList d eps minPts pts i))

/-- Cluster representatives in discovery order: scanning all points in
index order, the representative of each core point, first occurrences
only.  Cluster ids are positions in this list. -/
def coreReps : List (Fin pts.length) :=
  dedupKeep (((List.finRange pts.length).filter
    (fun k => isCorePt d eps minPts pts k)).filterMap (repOf d eps minPts pts))

/-- The lowest-index core point within `eps` of `i`, used to attach
border points. -/
def firstCoreNb (i : Fin pts.length) : Option (Fin pts.length) :=
  (List.finRange pts.length).find?
    (fun c => isCorePt d eps minPts pts c && decide (d (pts.get c) (pts.get i) ≤ eps))

/-- The DBSCAN label of point `i`: core points get their component's id,
border points the id of their lowest-index reaching core, everything else
noise (−1). -/
def labelOf (i : Fin pts.length) : Int :=
  if isCorePt d eps minPts pts i then
    match repOf d eps minPts pts i with
    | some r => ((coreReps d eps minPts pts).indexOf r : Int)
    | none => -1
  else
    match firstCoreNb d eps minPts pts i with
    | some c =>
      match repOf d eps minPts pts c with
      | some r => ((coreReps d eps minPts pts).indexOf r : Int)
      | none => -1
    | none => -1

end DBSCANModel

/-- A dataframe object, observed through its column list and cell grid —
just enough structure to witness in-place column assignment. -/
structure PyDataFrame where
  columns : List String
  cells : List (List Int)
deriving DecidableEq

/-- The pandas column assignment `df[c] = v` with a scalar: overwrites the
column if present, else appends a new column filled with `v`. -/
def assignColumn (df : PyDataFrame) (c : String) (v : Int) : PyDataFrame :=
  if c ∈ df.columns then
    { df with cells := df.cells.map (fun r => r.set (df.columns.indexOf c) v) }
  else
    { columns := df.columns ++ [c], cells := df.cells.map (fun r => r ++ [v]) }

/-- Effect model of `cluster_by_gps` (clustering.py lines 20-27) on the
caller's dataframe object: the pair is (function result, caller's object
after the call).  On the empty path (lines 20-22) the column assignment
happens on the caller's object itself, which is then returned; otherwise
line 24 rebinds `df` to a copy first, and `body` abstracts the rest of the
function, which only ever touches copies. -/
def cluster_by_gps_effect (body : PyDataFrame → PyDataFrame) (df : PyDataFrame) :
    PyDataFrame × PyDataFrame :=
  if df.cells.length = 0 then
    let mutated := assignColumn df "cluster_id" (-1)
    (mutated, mutated)
  else
    (body df, df)

/-- Concrete input for the C2 witness: three visits of buyer 1, one with
an unparsable date. -/
def rowsW : List Row :=
  [⟨1, "A", "p", "T", some 3, 0, 0⟩,
   ⟨1, "A", "p", "T", some 7, 1, 1⟩,
   ⟨1, "A", "p", "T", none, 2, 2⟩]

/-- Concrete input refuting the claimed centroid semantics: buyer 1 is
visited at (0,0) first and later at (5,5); buyer 2 once at (5,5); both in
cluster 0.  The canonical coordinates of both buyers are (5,5), yet the
stats aggregate buyer 1's first row (0,0). -/
def exRows3 : List LRow :=
  [⟨1, "A", "p1", "T1", some 1, 0, 0, 0⟩,
   ⟨1, "A", "p1", "T1", some 2, 5, 5, 0⟩,
   ⟨2, "B", "p2", "T2", some 2, 5, 5, 0⟩]

/-- Concrete input refuting the claimed trader-count semantics: buyer 1 is
visited by T1 first and by T2 most recently; buyer 2 by T1 only.  Both
claimed semantics count 2 traders in cluster 0; the code counts 1. -/
def exRows4 : List LRow :=
  [⟨1, "A", "p1", "T1", some 1, 0, 0, 0⟩,
   ⟨1, "A", "p1", "T2", some 2, 0, 0, 0⟩,
   ⟨2, "B", "p2", "T1", some 5, 0, 0, 0⟩]

/-- Concrete input for C10: two distinct buyers in cluster 0 whose phones
cleaned to the empty string (missing or non-digit input phones). -/
def exRows10 : List LRow :=
  [⟨1, "A", "", "T1", some 1, 0, 0, 0⟩,
   ⟨2, "B", "", "T2", some 1, 0, 0, 0⟩]

/-- Concrete input for the C9 witness: two buyers in cluster 0. -/
def exRows9 : List LRow :=
  [⟨1, "A", "p1", "T1", some 1, 0, 0, 0⟩,
   ⟨2, "B", "p2", "T2", some 1, 3, 4, 0⟩]

/-- Squared euclidean distance on rational pairs: a concrete symmetric
zero-diagonal distance used by witnesses to instantiate the abstract
metric parameter. -/
def sqDist (p q : ℚ × ℚ) : ℚ :=
  (p.1 - q.1) * (p.1 - q.1) + (p.2 - q.2) * (p.2 - q.2)

/-- Concrete empty dataframe (columns but no rows) for C6. -/
def emptyDf : PyDataFrame := ⟨["buyerid", "meetingDate"], []⟩

/-- The discrete metric on rational pairs: another concrete distance
(zero on equal points, one otherwise) used to instantiate the abstract
metric parameter in witnesses. -/
def discreteDist (p q : ℚ × ℚ) : ℚ := if p = q then 0 else 1

/-- Concrete cluster-stats input for the C1 witness: one cluster of two
retailers with two traders and a duplicated (empty) phone pair. -/
def statsW : List ClusterStatsRow :=
  [⟨0, 2, 2, ["A", "B"], ["", ""], 0, 0⟩]

/- ------------------------------------------------------------------ -/
/- Helper lemmas about the pandas primitives.                          -/
/- ------------------------------------------------------------------ -/

theorem dropDupBy_subset {α κ : Type} [DecidableEq κ] (key : α → κ)
    (l : List α) (seen : List κ) :
    ∀ r ∈ dropDupBy key l seen, r ∈ l := by
  induction l generalizing seen with
  | nil => simp [dropDupBy]
  | cons a t ih =>
    intro r hr
    simp only [dropDupBy] at hr
    split at hr
    · exact List.mem_cons_of_mem a (ih seen r hr)
    · rcases List.mem_cons.mp hr with h | h
      · simp [h]
      · exact List.mem_cons_of_mem a (ih _ r h)

theorem dropDupBy_key_not_seen {α κ : Type} [DecidableEq κ] (key : α → κ)
    (l : List α) (seen : List κ) :
    ∀ r ∈ dropDupBy key l seen, key r ∉ seen := by
  induction l generalizing seen with
  | nil => simp [dropDupBy]
  | cons a t ih =>
    intro r hr
    simp only [dropDupBy] at hr
    split at hr
    · exact ih seen r hr
    · rcases List.mem_cons.mp hr with h | h
      · subst h; assumption
      · intro hc
        exact ih _ r h (List.mem_cons_of_mem _ hc)

/-- In a list pairwise-ordered by `Q`, a survivor of `dropDupBy` relates by
`Q` (or is equal) to every member of the list that shares its key. -/
theorem dropDupBy_first_of_key {α κ : Type} [DecidableEq κ] (key : α → κ)
    {Q : α → α → Prop} (l : List α) (seen : List κ)
    (hp : List.Pairwise Q l) :
    ∀ r ∈ dropDupBy key l seen, ∀ s ∈ l, key s = key r → r = s ∨ Q r s := by
  induction l generalizing seen with
  | nil => simp [dropDupBy]
  | cons a t ih =>
    rcases List.pairwise_cons.mp hp with ⟨ha, ht⟩
    intro r hr s hs hkey
    simp only [dropDupBy] at hr
    split at hr
    · rename_i hseen
      rcases List.mem_cons.mp hs with hs | hs
      · exfalso
        subst hs
        exact dropDupBy_key_not_seen key t seen r hr (hkey ▸ hseen)
      · exact ih seen ht r hr s hs hkey
    · rcases List.mem_cons.mp hr with hr | hr
      · subst hr
        rcases List.mem_cons.mp hs with hs | hs
        · exact Or.inl hs.symm
        · exact Or.inr (ha s hs)
      · have hnot := dropDupBy_key_not_seen key t _ r hr
        rcases List.mem_cons.mp hs with hs | hs
        · exfalso
          subst hs
          exact hnot (by simp [hkey])
        · exact ih _ ht r hr s hs hkey

theorem dropDupBy_exists_key {α κ : Type} [DecidableEq κ] (key : α → κ)
    (l : List α) (seen : List κ) (b : κ) (hb : b ∉ seen)
    (hex : ∃ s ∈ l, key s = b) :
    ∃ r ∈ dropDupBy key l seen, key r = b := by
  induction l generalizing seen with
  | nil => simp at hex
  | cons a t ih =>
    simp only [dropDupBy]
    rcases hex with ⟨s, hs, hkey⟩
    split
    · rename_i hseen
      rcases List.mem_cons.mp hs with hs | hs
      · exact absurd (show b ∈ seen by rw [← hkey, hs]; exact hseen) hb
      · exact ih seen hb ⟨s, hs, hkey⟩
    · by_cases hab : key a = b
      · exact ⟨a, by simp, hab⟩
      · rcases List.mem_cons.mp hs with hs | hs
        · exact absurd (hs ▸ hkey) hab
        · have hb2 : b ∉ key a :: seen := by
            intro hc
            rcases List.mem_cons.mp hc with hc | hc
            · exact hab hc.symm
            · exact hb hc
          rcases ih (key a :: seen) hb2 ⟨s, hs, hkey⟩ with ⟨r, hr, hrk⟩
          exact ⟨r, by simp [hr], hrk⟩

/-- C2: for every buyerId group, the deduplicated canonical record is one
whose timestamp is the maximum of the group's parsable timestamps (a
record with an unparsable/missing timestamp is never chosen ahead of a
dated record of the same buyerId), and the derived visit count
(meeting_count) equals the total number of records in that group. -/
theorem dedupUnique_canonical (rows : List Row) (b : Nat) :
    ((∃ s ∈ rows, s.buyerid = b) → ∃ r ∈ dedupUnique rows, r.buyerid = b) ∧
    (∀ r ∈ dedupUnique rows, r.buyerid = b →
      r ∈ rows ∧
      (∀ s ∈ rows, s.buyerid = b → dateDescLE r.meetingDate s.meetingDate = true) ∧
      ((∃ s ∈ rows, s.buyerid = b ∧ s.meetingDate.isSome) →
        ∃ dmax, r.meetingDate = some dmax ∧
          (∃ s ∈ rows, s.buyerid = b ∧ s.meetingDate = some dmax) ∧
          (∀ s ∈ rows, s.buyerid = b → ∀ e, s.meetingDate = some e → e ≤ dmax))) ∧
    meeting_count rows b = (rows.filter (fun s => s.buyerid == b)).length := by
  have hperm : (sortByDateDesc rows).Perm rows := List.perm_insertionSort _ _
  have hpair : List.Pairwise rowDateGE (sortByDateDesc rows) :=
    List.sorted_insertionSort rowDateGE rows
  refine ⟨?_, ?_, ?_⟩
  · rintro ⟨s, hs, hsb⟩
    exact dropDupBy_exists_key _ _ _ b (by simp) ⟨s, hperm.mem_iff.mpr hs, hsb⟩
  · intro r hr hrb
    have hr' : r ∈ dropDupBy (fun r => r.buyerid) (sortByDateDesc rows) [] := hr
    have hrmem : r ∈ rows := hperm.mem_iff.mp (dropDupBy_subset _ _ _ r hr')
    have hfirst := dropDupBy_first_of_key (fun r => r.buyerid) _ [] hpair r hr'
    have hgeAll : ∀ s ∈ rows, s.buyerid = b →
        dateDescLE r.meetingDate s.meetingDate = true := by
      intro s hs hsb
      rcases hfirst s (hperm.mem_iff.mpr hs)
          (show s.buyerid = r.buyerid from hsb.trans hrb.symm) with h | h
      · rw [h]
        cases s.meetingDate <;> simp [dateDescLE]
      · exact h
    refine ⟨hrmem, hgeAll, ?_⟩
    rintro ⟨s0, hs0, hs0b, hs0some⟩
    rcases hd0 : s0.meetingDate with _ | e0
    · rw [hd0] at hs0some; simp at hs0some
    · have h1 := hgeAll s0 hs0 hs0b
      rw [hd0] at h1
      rcases hrd : r.meetingDate with _ | dmax
      · rw [hrd] at h1; simp [dateDescLE] at h1
      · refine ⟨dmax, rfl, ⟨r, hrmem, hrb, hrd⟩, ?_⟩
        intro s hs hsb e he
        have h2 := hgeAll s hs hsb
        rw [hrd, he] at h2
        simpa [dateDescLE] using h2
  · exact List.countP_eq_length_filter _ rows

/-- Witness for C2 at the concrete input `rowsW` (three visits of buyer 1,
the most recent dated 7, one visit undated). -/
theorem dedupUnique_canonical_witness :
    (∃ r ∈ dedupUnique rowsW, r.buyerid = 1) ∧ meeting_count rowsW 1 = 3 :=
  ⟨(dedupUnique_canonical rowsW 1).1 ⟨⟨1, "A", "p", "T", some 3, 0, 0⟩, by decide, rfl⟩,
    by decide⟩

/- ------------------------------------------------------------------ -/
/- C9: the on-demand distance matrix.                                  -/
/- ------------------------------------------------------------------ -/

theorem foldl_invariant {α β : Type} (Pr : β → Prop) (f : β → α → β) (l : List α) :
    ∀ b, Pr b → (∀ x ∈ l, ∀ y, Pr y → Pr (f y x)) → Pr (l.foldl f b) := by
  induction l with
  | nil => intro b hb _; exact hb
  | cons a t ih =>
    intro b hb hf
    exact ih (f b a) (hf a (by simp) b hb) (fun x hx y hy => hf x (by simp [hx]) y hy)

theorem updM_pair_diag (M : Nat → Nat → ℚ) (i j : Nat) (v : ℚ) (hij : i ≠ j)
    (hd : ∀ a, M a a = 0) : ∀ a, updM (updM M i j v) j i v a a = 0 := by
  intro a
  simp only [updM]
  split_ifs with h1 h2
  · exact absurd (h1.1.symm.trans h1.2) (Ne.symm hij)
  · exact absurd (h2.1.symm.trans h2.2) hij
  · exact hd a

theorem updM_pair_symm (M : Nat → Nat → ℚ) (i j : Nat) (v : ℚ)
    (hs : ∀ a b, M a b = M b a) :
    ∀ a b, updM (updM M i j v) j i v a b = updM (updM M i j v) j i v b a := by
  intro a b
  simp only [updM]
  split_ifs <;> first | rfl | exact hs a b | tauto

theorem fillMatrix_diag_symm (d : (ℚ × ℚ) → (ℚ × ℚ) → ℚ) (coords : List (ℚ × ℚ)) :
    (∀ a, fillMatrix d coords a a = 0) ∧
    (∀ a b, fillMatrix d coords a b = fillMatrix d coords b a) := by
  unfold fillMatrix
  refine foldl_invariant
    (fun M : Nat → Nat → ℚ => (∀ a, M a a = 0) ∧ (∀ a b, M a b = M b a)) _ _ _
    ⟨fun _ => rfl, fun _ _ => rfl⟩ ?_
  intro i hi M hM
  refine foldl_invariant
    (fun M : Nat → Nat → ℚ => (∀ a, M a a = 0) ∧ (∀ a b, M a b = M b a)) _ _ _ hM ?_
  intro j hj M2 hM2
  have hij : i ≠ j := by
    rcases List.mem_range'_1.mp hj with ⟨h1, _⟩
    omega
  exact ⟨updM_pair_diag M2 i j _ hij hM2.1, updM_pair_symm M2 i j _ hM2.2⟩

/-- C9: for every cluster id, the on-demand distance matrix over that
cluster's canonical retailers is symmetric with zero diagonal, and for a
cluster with fewer than 2 members the result is empty rather than an
error. -/
theorem distance_matrix_symm_zero_diag (d : (ℚ × ℚ) → (ℚ × ℚ) → ℚ)
    (rows : List LRow) (cid : Int) :
    ((uniqueClusterRows rows cid).length < 2 →
      calculate_distance_matrix d rows cid = none) ∧
    (∀ M names, calculate_distance_matrix d rows cid = some (M, names) →
      (∀ a, M a a = 0) ∧ (∀ a b, M a b = M b a)) := by
  constructor
  · intro h
    unfold calculate_distance_matrix
    rw [if_pos h]
  · intro M names hM
    simp only [calculate_distance_matrix] at hM
    split at hM
    · exact absurd hM (by simp)
    · have h2 := Option.some.inj hM
      injection h2 with hA hB
      subst hA
      exact ⟨(fillMatrix_diag_symm d _).1, (fillMatrix_diag_symm d _).2⟩

/-- Witness for C9 at the concrete input `exRows9` with the squared
euclidean distance. -/
theorem distance_matrix_symm_zero_diag_witness :
    ∃ M names, calculate_distance_matrix sqDist exRows9 0 = some (M, names) ∧
      M 0 0 = 0 ∧ M 0 1 = M 1 0 :=
  ⟨_, _, rfl,
    ((distance_matrix_symm_zero_diag sqDist exRows9 0).2 _ _ rfl).1 0,
    ((distance_matrix_symm_zero_diag sqDist exRows9 0).2 _ _ rfl).2 0 1⟩

/- ------------------------------------------------------------------ -/
/- C1: the risk score formula, bounds and levels.                      -/
/- ------------------------------------------------------------------ -/

/-- C1: for every cluster, the risk score equals `min(sum, 100)` where the
sum accumulates the size factor, the single-trader factor, the capped
similarity factor (defaulting to 0 when the cluster misses from the
similarity results), and the phone-duplicate factor; the score lies in
[0, 100] (it is a `Nat`, so 0 ≤ score holds by type), and `risk_level` is
High at ≥ 60, Medium at ≥ 30, else Low. -/
theorem risk_score_formula (stats : List ClusterStatsRow)
    (simres : List (Int × Nat)) :
    ∀ sr ∈ calculate_cluster_risk_score stats simres,
      sr.risk_score =
        min (sizeFactor sr.stats.retailer_count + concFactor sr.stats.trader_count +
          simFactor ((lookupSim simres sr.stats.cluster_id).getD 0) +
          phoneFactor sr.stats.phone_numbers) 100 ∧
      sr.risk_score ≤ 100 ∧
      sr.risk_level = riskLevel sr.risk_score ∧
      (60 ≤ sr.risk_score → sr.risk_level = "High") ∧
      (30 ≤ sr.risk_score → sr.risk_score < 60 → sr.risk_level = "Medium") ∧
      (sr.risk_score < 30 → sr.risk_level = "Low") := by
  intro sr hsr
  rcases List.mem_map.mp hsr with ⟨st, hst, rfl⟩
  dsimp only
  have hscore : ∀ o : Option Nat, scoreOf st o =
      min (sizeFactor st.retailer_count + concFactor st.trader_count +
        simFactor (o.getD 0) + phoneFactor st.phone_numbers) 100 := by
    intro o
    cases o with
    | none =>
      simp only [scoreOf, sizeFactor, concFactor, simFactor, phoneFactor, Option.getD_none]
      split_ifs <;> omega
    | some c =>
      simp only [scoreOf, sizeFactor, concFactor, simFactor, phoneFactor, Option.getD_some]
      split_ifs <;> omega
  refine ⟨hscore _, ?_, rfl, ?_, ?_, ?_⟩
  · rw [hscore]
    exact Nat.min_le_right _ _
  · intro h60
    rw [riskLevel, if_pos h60]
  · intro h30 h60
    rw [riskLevel, if_neg (by omega), if_pos h30]
  · intro h30
    rw [riskLevel, if_neg (by omega), if_neg (by omega)]

/-- Witness for C1 at concrete stats (2 retailers, 2 traders, a duplicate
phone, 2 similar name pairs): score 10 + 0 + 30 + 15 = 55, level
Medium. -/
theorem risk_score_formula_witness :
    ∃ sr ∈ calculate_cluster_risk_score statsW [(0, 2)],
      sr.risk_score = 55 ∧ sr.risk_level = "Medium" := by
  refine ⟨⟨⟨0, 2, 2, ["A", "B"], ["", ""], 0, 0⟩, 55, "Medium"⟩, by decide, ?_, ?_⟩
  · have h := (risk_score_formula statsW [(0, 2)]
      ⟨⟨0, 2, 2, ["A", "B"], ["", ""], 0, 0⟩, 55, "Medium"⟩ (by decide)).1
    rw [h]
    decide
  · exact (risk_score_formula statsW [(0, 2)]
      ⟨⟨0, 2, 2, ["A", "B"], ["", ""], 0, 0⟩, 55, "Medium"⟩ (by decide)).2.2.2.2.1
      (by decide) (by decide)

/- ------------------------------------------------------------------ -/
/- C7, C8: the name-similarity function.                               -/
/- ------------------------------------------------------------------ -/

theorem lcsF_symm : ∀ (f : Nat) (x y : List Char), lcsF f x y = lcsF f y x := by
  intro f
  induction f with
  | zero => intro x y; rfl
  | succ f ih =>
    intro x y
    cases x with
    | nil => cases y <;> rfl
    | cons a as =>
      cases y with
      | nil => rfl
      | cons b bs =>
        by_cases hab : a = b
        · subst hab
          simp [lcsF, ih as bs]
        · have hba : ¬ b = a := fun h => hab h.symm
          simp only [lcsF, if_neg hab, if_neg hba]
          rw [ih (a :: as) bs, ih as (b :: bs), Nat.max_comm]

theorem lcs_symm (x y : List Char) : lcs x y = lcs y x := by
  unfold lcs
  rw [lcsF_symm, Nat.add_comm]

theorem lcsF_self_of_le (l : List Char) : ∀ f, l.length ≤ f → lcsF f l l = l.length := by
  induction l with
  | nil => intro f hf; cases f <;> rfl
  | cons c cs ih =>
    intro f hf
    cases f with
    | zero => simp at hf
    | succ f =>
      simp only [lcsF, if_pos rfl]
      rw [ih f (by simp at hf; omega)]
      simp

theorem lcs_self (l : List Char) : lcs l l = l.length :=
  lcsF_self_of_le l _ (by omega)

theorem indelRatio_symm (x y : String) : indelRatio x y = indelRatio y x := by
  unfold indelRatio
  rw [lcs_symm, Nat.add_comm x.data.length y.data.length,
    add_comm (x.data.length : ℚ) (y.data.length : ℚ)]

theorem indelRatio_self (x : String) : indelRatio x x = 100 := by
  unfold indelRatio
  by_cases h : x.data.length + x.data.length = 0
  · rw [if_pos h]
  · rw [if_neg h, lcs_self]
    have hl : ((x.data.length : ℚ)) + (x.data.length : ℚ) ≠ 0 := by
      have hn : x.data.length ≠ 0 := by omega
      have hq : ((x.data.length : ℚ)) ≠ 0 := by exact_mod_cast hn
      intro hc
      apply hq
      linarith
    rw [div_eq_iff hl]
    ring

theorem tokenSortedForm_eq_of_perm {s t : String}
    (h : (pySplit s).Perm (pySplit t)) : tokenSortedForm s = tokenSortedForm t := by
  unfold tokenSortedForm
  congr 1
  exact List.eq_of_perm_of_sorted
    ((List.perm_insertionSort strLE _).trans (h.trans (List.perm_insertionSort strLE _).symm))
    (List.sorted_insertionSort strLE _)
    (List.sorted_insertionSort strLE _)

/-- C8: the name-similarity function is symmetric, names that are
whitespace-token reorderings of each other (after lowercasing and
trimming) score exactly 100, and in particular
similarity("Sharma General Store", "General Store Sharma") = 100. -/
theorem name_similarity_symmetric_token_invariant :
    (∀ a b, calculate_name_similarity a b = calculate_name_similarity b a) ∧
    (∀ s t : String,
      (pySplit (pyStrip (pyLower s))).Perm (pySplit (pyStrip (pyLower t))) →
      calculate_name_similarity (some s) (some t) = 100) ∧
    calculate_name_similarity (some "Sharma General Store") (some "General Store Sharma") = 100 := by
  have hperm100 : ∀ s t : String,
      (pySplit (pyStrip (pyLower s))).Perm (pySplit (pyStrip (pyLower t))) →
      calculate_name_similarity (some s) (some t) = 100 := by
    intro s t h
    show token_sort_ratio _ _ = 100
    unfold token_sort_ratio
    rw [tokenSortedForm_eq_of_perm h]
    exact indelRatio_self _
  refine ⟨?_, hperm100, hperm100 _ _ (by decide)⟩
  intro a b
  cases a with
  | none => cases b <;> rfl
  | some n1 =>
    cases b with
    | none => rfl
    | some n2 =>
      show token_sort_ratio _ _ = token_sort_ratio _ _
      unfold token_sort_ratio
      exact indelRatio_symm _ _

/-- Witness for C8: the spec's concrete example pair scores 100, and a
concrete symmetry instance. -/
theorem name_similarity_symmetric_witness :
    calculate_name_similarity (some "Raj Traders") (some "Traders Raj") = 100 ∧
    calculate_name_similarity (some "Ram Store") (some "Shyam Store") =
      calculate_name_similarity (some "Shyam Store") (some "Ram Store") :=
  ⟨name_similarity_symmetric_token_invariant.2.1 "Raj Traders" "Traders Raj" (by decide),
    name_similarity_symmetric_token_invariant.1 (some "Ram Store") (some "Shyam Store")⟩

/-- C7 counterexample: a record whose missing name passed through the
ingestion cleaning step carries the literal string "nan", and the
similarity of two such records is 100, not 0. -/
theorem cleaned_missing_name_scores_100 :
    calculate_name_similarity (some (clean_buyerName none)) (some (clean_buyerName none)) = 100 ∧
    (100 : ℚ) ≠ 0 := by
  constructor
  · show token_sort_ratio _ _ = 100
    unfold token_sort_ratio
    exact indelRatio_self _
  · norm_num

/-- C7 amended: `calculate_name_similarity` returns 0 (without raising)
whenever either argument is an actual null; but records that passed the
ingestion cleaning step never carry a null name — a missing name becomes
the string "nan", which is compared like any other string. -/
theorem name_similarity_null_zero (a b : Option String) (h : a = none ∨ b = none) :
    calculate_name_similarity a b = 0 := by
  rcases h with rfl | rfl
  · rfl
  · cases a <;> rfl

/-- Witness for the amended C7 at a concrete null input. -/
theorem name_similarity_null_zero_witness :
    calculate_name_similarity none (some "Sharma General Store") = 0 :=
  name_similarity_null_zero none (some "Sharma General Store") (Or.inl rfl)

/- ------------------------------------------------------------------ -/
/- C3, C4: calculate_cluster_stats skips the date sort.                -/
/- ------------------------------------------------------------------ -/

/-- C3 (evaluation at the failing input): on `exRows3` the only cluster's
`center_lat` is 5/2 — the mean over each member's FIRST-in-input-order
row — while the mean over the members' canonical (most recent) coordinates
is 5; the two disagree, and the code's center equals the first-row mean. -/
theorem cluster_stats_center_not_canonical :
    (calculate_cluster_stats exRows3).map (fun st => st.cluster_id) = [0] ∧
    (calculate_cluster_stats exRows3).map (fun st => st.center_lat) = [5 / 2] ∧
    specCenterLat exRows3 0 = 5 ∧
    ((5 : ℚ) / 2) ≠ 5 ∧
    (calculate_cluster_stats exRows3).map (fun st => st.center_lat) =
      [((firstRowsOf exRows3 0).map (fun r => r.lat)).sum /
        ((firstRowsOf exRows3 0).length : ℚ)] := by
  refine ⟨by decide, ?_, ?_, by norm_num, ?_⟩
  · norm_num [calculate_cluster_stats, sortedClusterIds, membersOf, unique_buyers,
      clusteredRows, dedupKeep, dropDupBy, exRows3, List.insertionSort, List.orderedInsert]
  · norm_num [specCenterLat, specClusterMembers, specCanonicalLat, canonicalOf, groupRowsL,
      dedupKeep, dropDupBy, exRows3, List.insertionSort, List.orderedInsert, lrowDateGE,
      dateDescLE]
  · norm_num [calculate_cluster_stats, sortedClusterIds, membersOf, unique_buyers,
      clusteredRows, dedupKeep, dropDupBy, exRows3, List.insertionSort, List.orderedInsert,
      firstRowsOf]

/-- C4 (evaluation at the failing input): on `exRows4` the code's
`trader_count` for cluster 0 is 1 (the distinct traders over each member's
first-in-input-order row), while both semantics the claim allows — the
canonical most-recent trader per member, and the distinct traders over all
member visits — count 2. -/
theorem cluster_stats_trader_count_first_row :
    (calculate_cluster_stats exRows4).map (fun st => (st.cluster_id, st.trader_count)) =
      [(0, 1)] ∧
    specTraderCountCanonical exRows4 0 = 2 ∧
    specTraderCountAll exRows4 0 = 2 ∧
    (1 : Nat) ≠ 2 :=
  ⟨by decide, by decide, by decide, by decide⟩

/- ------------------------------------------------------------------ -/
/- C6: the empty-input path mutates the caller's dataframe.            -/
/- ------------------------------------------------------------------ -/

/-- C6 (evaluation at the failing input): called on an empty dataframe,
`cluster_by_gps` executes `df['cluster_id'] = -1` on the caller's object
before any copy, so the caller's dataframe gains a `cluster_id` column —
the call is not side-effect-free — whatever the rest of the function
(`body`) does; on any nonempty dataframe the caller's object is left
unchanged because line 24 copies first. -/
theorem cluster_by_gps_mutates_empty_input :
    ∀ body, (cluster_by_gps_effect body emptyDf).2 ≠ emptyDf ∧
      (cluster_by_gps_effect body emptyDf).2.columns =
        ["buyerid", "meetingDate", "cluster_id"] ∧
      (∀ df : PyDataFrame, df.cells.length ≠ 0 →
        (cluster_by_gps_effect body df).2 = df) := by
  intro body
  have h : (cluster_by_gps_effect body emptyDf).2 =
      assignColumn emptyDf "cluster_id" (-1) := rfl
  rw [h]
  refine ⟨by decide, by decide, ?_⟩
  intro df hdf
  unfold cluster_by_gps_effect
  rw [if_neg hdf]

/-- Witness for C6 with the identity as the abstracted function body. -/
theorem cluster_by_gps_mutates_empty_input_witness :
    (cluster_by_gps_effect id emptyDf).2 ≠ emptyDf :=
  (cluster_by_gps_mutates_empty_input id).1

/- ------------------------------------------------------------------ -/
/- C10: the phone factor fires while no PhoneGroup is formed.          -/
/- ------------------------------------------------------------------ -/

/-- C10: on `exRows10` (two retailers whose phones cleaned to the empty
string) the scorer's phone factor contributes +15 — the total score is
10 + 15 = 25 — while `analyze_cluster_similarity` forms no phone group for
the same cluster, because blank phones are excluded from grouping. -/
theorem phone_factor_without_phone_groups :
    (calculate_cluster_stats exRows10).map (fun st => phoneFactor st.phone_numbers) = [15] ∧
    (calculate_cluster_stats exRows10).map
      (fun st => scoreOf st (lookupSim [] st.cluster_id)) = [25] ∧
    analyze_phone_groups exRows10 0 = [] :=
  ⟨by decide, by decide, by decide⟩

/- ------------------------------------------------------------------ -/
/- C5: identical coordinates cluster together in DBSCAN.               -/
/- ------------------------------------------------------------------ -/

theorem mem_dedupKeep {κ : Type} [DecidableEq κ] (l : List κ) (x : κ) :
    x ∈ dedupKeep l ↔ x ∈ l := by
  constructor
  · intro h
    exact dropDupBy_subset id l [] x h
  · intro h
    rcases dropDupBy_exists_key id l [] x (by simp) ⟨x, h, rfl⟩ with ⟨r, hr, hrx⟩
    exact hrx ▸ hr

theorem nodup_dropDupBy_id {κ : Type} [DecidableEq κ] (l : List κ) :
    ∀ seen, (dropDupBy id l seen).Nodup := by
  induction l with
  | nil => intro seen; simp [dropDupBy]
  | cons a t ih =>
    intro seen
    simp only [dropDupBy]
    split
    · exact ih seen
    · refine List.nodup_cons.mpr ⟨?_, ih _⟩
      intro hmem
      exact dropDupBy_key_not_seen id t (id a :: seen) a hmem (by simp)

theorem dropDupBy_id_append {κ : Type} [DecidableEq κ] (s : List κ) :
    ∀ (t seen : List κ), s.Nodup → (∀ x ∈ s, x ∉ seen) →
      dropDupBy id (s ++ t) seen = s ++ dropDupBy id t (s.reverse ++ seen) := by
  induction s with
  | nil => intro t seen _ _; simp
  | cons a s' ih =>
    intro t seen hnd hdisj
    simp only [List.cons_append, dropDupBy, id_eq]
    rw [if_neg (hdisj a (by simp))]
    rw [List.append_eq]
    rw [ih t (a :: seen) (List.nodup_cons.mp hnd).2 ?_]
    · simp [List.append_assoc]
    · intro x hx hc
      rcases List.mem_cons.mp hc with hc | hc
      · exact (List.nodup_cons.mp hnd).1 (hc ▸ hx)
      · exact hdisj x (by simp [hx]) hc

section DBSCANProofs

variable {P : Type} (d : P → P → ℚ) (eps : ℚ) (minPts : Nat) (pts : List P)

theorem stepClose_mem_iff (s : List (Fin pts.length)) (x : Fin pts.length) :
    x ∈ stepClose d eps minPts pts s ↔
      x ∈ s ∨ ∃ a ∈ s, coreAdj d eps minPts pts a x = true := by
  unfold stepClose dedupKeep
  rw [show dropDupBy id (s ++ (List.finRange pts.length).filter
      (fun k => s.any (fun a => coreAdj d eps minPts pts a k))) [] =
    dedupKeep (s ++ (List.finRange pts.length).filter
      (fun k => s.any (fun a => coreAdj d eps minPts pts a k))) from rfl]
  rw [mem_dedupKeep]
  simp [List.mem_append, List.mem_filter, List.mem_finRange, List.any_eq_true]

theorem stepClose_nodup (s : List (Fin pts.length)) :
    (stepClose d eps minPts pts s).Nodup :=
  nodup_dropDupBy_id _ _

theorem stepClose_decomp (s : List (Fin pts.length)) (hnd : s.Nodup) :
    stepClose d eps minPts pts s =
      s ++ dropDupBy id ((List.finRange pts.length).filter
        (fun k => s.any (fun a => coreAdj d eps minPts pts a k))) s.reverse := by
  unfold stepClose dedupKeep
  rw [dropDupBy_id_append s _ [] hnd (by simp)]
  simp

theorem stepClose_eq_of_len (s : List (Fin pts.length)) (hnd : s.Nodup)
    (hlen : (stepClose d eps minPts pts s).length = s.length) :
    stepClose d eps minPts pts s = s := by
  have hd := stepClose_decomp d eps minPts pts s hnd
  rw [hd] at hlen ⊢
  have h0 : (dropDupBy id ((List.finRange pts.length).filter
      (fun k => s.any (fun a => coreAdj d eps minPts pts a k))) s.reverse).length = 0 := by
    rw [List.length_append] at hlen
    omega
  rw [List.length_eq_zero] at h0
  rw [h0]
  simp

theorem stepClose_len_le (s : List (Fin pts.length)) :
    (stepClose d eps minPts pts s).length ≤ pts.length := by
  have h := (stepClose_nodup d eps minPts pts s).length_le_card
  simpa using h

theorem stepClose_len_ge (s : List (Fin pts.length)) (hnd : s.Nodup) :
    s.length ≤ (stepClose d eps minPts pts s).length := by
  rw [stepClose_decomp d eps minPts pts s hnd, List.length_append]
  omega

theorem closeFuel_stable (f : Nat) :
    ∀ (s : List (Fin pts.length)), s.Nodup → pts.length ≤ f + s.length →
      stepClose d eps minPts pts (closeFuel d eps minPts pts f s) =
        closeFuel d eps minPts pts f s := by
  induction f with
  | zero =>
    intro s hnd hle
    simp only [closeFuel]
    apply stepClose_eq_of_len d eps minPts pts s hnd
    have h1 := stepClose_len_le d eps minPts pts s
    have h2 := stepClose_len_ge d eps minPts pts s hnd
    omega
  | succ f ih =>
    intro s hnd hle
    simp only [closeFuel]
    split
    · rename_i heq
      exact stepClose_eq_of_len d eps minPts pts s hnd heq
    · rename_i hne
      apply ih
      · exact stepClose_nodup d eps minPts pts s
      · have h2 := stepClose_len_ge d eps minPts pts s hnd
        omega

theorem mem_closeFuel_self (f : Nat) :
    ∀ (s : List (Fin pts.length)) (x : Fin pts.length), x ∈ s →
      x ∈ closeFuel d eps minPts pts f s := by
  induction f with
  | zero => intro s x hx; exact hx
  | succ f ih =>
    intro s x hx
    simp only [closeFuel]
    split
    · exact hx
    · exact ih _ x ((stepClose_mem_iff d eps minPts pts s x).mpr (Or.inl hx))

theorem closeFuel_sound (i : Fin pts.length) (f : Nat) :
    ∀ (s : List (Fin pts.length)) (x : Fin pts.length),
      (∀ y ∈ s, Relation.ReflTransGen (fun a b => coreAdj d eps minPts pts a b = true) i y) →
      x ∈ closeFuel d eps minPts pts f s →
      Relation.ReflTransGen (fun a b => coreAdj d eps minPts pts a b = true) i x := by
  induction f with
  | zero => intro s x hs hx; exact hs x hx
  | succ f ih =>
    intro s x hs hx
    simp only [closeFuel] at hx
    split at hx
    · exact hs x hx
    · refine ih _ x ?_ hx
      intro y hy
      rcases (stepClose_mem_iff d eps minPts pts s y).mp hy with h | ⟨a, ha, hadj⟩
      · exact hs y h
      · exact Relation.ReflTransGen.tail (hs a ha) hadj

theorem mem_reachList_iff (i x : Fin pts.length) :
    x ∈ reachList d eps minPts pts i ↔
      Relation.ReflTransGen (fun a b => coreAdj d eps minPts pts a b = true) i x := by
  have hself : i ∈ reachList d eps minPts pts i :=
    mem_closeFuel_self d eps minPts pts pts.length [i] i (by simp)
  have hstable : stepClose d eps minPts pts (reachList d eps minPts pts i) =
      reachList d eps minPts pts i :=
    closeFuel_stable d eps minPts pts pts.length [i] (List.nodup_singleton i)
      (by simp)
  constructor
  · intro hx
    refine closeFuel_sound d eps minPts pts i pts.length [i] x ?_ hx
    intro y hy
    rcases List.mem_singleton.mp hy with rfl
    exact Relation.ReflTransGen.refl
  · intro hx
    induction hx with
    | refl => exact hself
    | tail h1 h2 ih =>
      rename_i b c
      have hc : c ∈ stepClose d eps minPts pts (reachList d eps minPts pts i) :=
        (stepClose_mem_iff d eps minPts pts _ c).mpr (Or.inr ⟨b, ih, h2⟩)
      rw [hstable] at hc
      exact hc

theorem find?_ext {α : Type} (p q : α → Bool) (l : List α) (h : ∀ a, p a = q a) :
    l.find? p = l.find? q := by
  induction l with
  | nil => rfl
  | cons a t ih =>
    cases hq : q a with
    | true => simp [List.find?, h a, hq]
    | false => simp [List.find?, h a, hq, ih]

/-- C5: for every metric (symmetric, zero on the diagonal) and every
eps > 0 and minSamples ≥ 1, two points with identical coordinates always
receive the same DBSCAN cluster label. -/
theorem dbscan_identical_points_same_label
    (hd0 : ∀ p, d p p = 0) (hsym : ∀ p q, d p q = d q p) (heps : 0 < eps)
    (hmin : 1 ≤ minPts) (i j : Fin pts.length) (hij : pts.get i = pts.get j) :
    labelOf d eps minPts pts i = labelOf d eps minPts pts j := by
  have hnbhd : nbhd d eps pts i = nbhd d eps pts j := by
    unfold nbhd
    rw [hij]
  have hcore : isCorePt d eps minPts pts i = isCorePt d eps minPts pts j := by
    unfold isCorePt
    rw [hnbhd]
  by_cases hci : isCorePt d eps minPts pts i = true
  · have hcj : isCorePt d eps minPts pts j = true := hcore ▸ hci
    have hadj : coreAdj d eps minPts pts i j = true := by
      unfold coreAdj
      rw [hci, hcj, hij, hd0 (pts.get j)]
      simp [le_of_lt heps]
    have hsymAdj : ∀ a b, coreAdj d eps minPts pts a b = coreAdj d eps minPts pts b a := by
      intro a b
      unfold coreAdj
      rw [hsym (pts.get a) (pts.get b)]
      cases isCorePt d eps minPts pts a <;> cases isCorePt d eps minPts pts b <;> simp
    have hreach : ∀ x, (x ∈ reachList d eps minPts pts i ↔ x ∈ reachList d eps minPts pts j) := by
      intro x
      rw [mem_reachList_iff, mem_reachList_iff]
      constructor
      · intro h
        exact Relation.ReflTransGen.head (by rw [hsymAdj j i]; exact hadj) h
      · intro h
        exact Relation.ReflTransGen.head hadj h
    have hrep : repOf d eps minPts pts i = repOf d eps minPts pts j := by
      unfold repOf
      apply find?_ext
      intro k
      exact decide_eq_decide.mpr (hreach k)
    simp only [labelOf, hci, hcj, hrep, if_true]
  · have hcj : ¬ isCorePt d eps minPts pts j = true := by
      rw [← hcore]
      exact hci
    have hfcn : firstCoreNb d eps minPts pts i = firstCoreNb d eps minPts pts j := by
      unfold firstCoreNb
      rw [hij]
    rw [Bool.not_eq_true] at hci hcj
    simp only [labelOf, hci, hcj, hfcn]
    simp

end DBSCANProofs

/-- Witness for C5: two coincident points under the discrete metric with
eps = 1 and minSamples = 1 receive the same label. -/
theorem dbscan_identical_points_same_label_witness :
    labelOf discreteDist 1 1 [((0 : ℚ), (0 : ℚ)), ((0 : ℚ), (0 : ℚ))] ⟨0, by decide⟩ =
      labelOf discreteDist 1 1 [((0 : ℚ), (0 : ℚ)), ((0 : ℚ), (0 : ℚ))] ⟨1, by decide⟩ :=
  dbscan_identical_points_same_label discreteDist 1 1
    [((0 : ℚ), (0 : ℚ)), ((0 : ℚ), (0 : ℚ))]
    (fun p => by simp [discreteDist])
    (fun p q => by simp [discreteDist, eq_comm])
    (by norm_num) (le_refl 1) ⟨0, by decide⟩ ⟨1, by decide⟩ rfl
